import Mathlib

/-
Shallow embedding of the MPD fragment consisting of
  src/output/plugins/snapcast/Internal.hxx  (class SnapcastOutput)
  src/lib/icu/Transliterator.cxx            (IcuTransliterator::Transliterate)

The Snapcast header declares the orchestrator but contains bodies only for
HasClients, LockHasClients, GetCodecName, GetCodecHeader, Enable and Disable.
The bodies of Open, Close, Play, Cancel, Pause, AddClient, RemoveClient,
OpenEncoder and BroadcastWireChunk are not part of the shown fragment, so those
operations are modelled from the specification document, as marked on each
definition.  Bytes and UTF-16 code units are modelled as Nat; the intrusive
client list is modelled as a list of client identifiers.
-/

/--
Response of the black-box encoder plugin to one Play cycle:
`consumed` is how many of the offered input bytes the encoder accepts from
Feed, `drained` is how many encoded bytes Drain returns spontaneously, and
`flushed` is how many bytes a forced Flush would emit.  The encoder is opaque
to the orchestrator (spec, section 4.2), so one Play step is parameterised by
this response.
-/
structure EncoderResp where
  consumed : Nat
  drained : Nat
  flushed : Nat
  deriving DecidableEq, Repr

/--
State of a SnapcastOutput instance, following the fields of Internal.hxx:
`isOpen` models `bool open` (the name `open` is a Lean keyword);
`encoder` models the `Encoder *encoder` pointer, `none` standing for null;
`codec_header` models the `AllocatedArray<std::byte> codec_header` buffer,
`none` standing for an absent header; `unflushed_input` models
`size_t unflushed_input`; `timer` models the `Timer *timer` pointer;
`clients` models the `IntrusiveList<SnapcastClient> clients` as the list of
client identifiers in insertion order; `bound` models whether the
ServerSocket is listening (Bind/Unbind).  `total_consumed` is the ledger of
all input bytes the encoder instance has ever consumed, kept to state the
accounting property of Play.
-/
structure ServerState where
  isOpen : Bool
  encoder : Option Unit
  codec_header : Option (List Nat)
  unflushed_input : Nat
  total_consumed : Nat
  timer : Option Unit
  clients : List Nat
  bound : Bool
  deriving DecidableEq, Repr

/-- The state of a freshly constructed SnapcastOutput: closed, no encoder,
no codec header, no clients, not listening. -/
def initState : ServerState :=
  { isOpen := false
    encoder := none
    codec_header := none
    unflushed_input := 0
    total_consumed := 0
    timer := none
    clients := []
    bound := false }

/-- Embedding of `SnapcastOutput::HasClients` from Internal.hxx:
`return !clients.empty();`. -/
def SnapcastOutput.HasClients (s : ServerState) : Bool :=
  !s.clients.isEmpty

/-- Embedding of a `std::lock_guard<Mutex>` scope: the mutex is acquired, the
body runs, and the mutex is released.  In this sequential embedding holding
the mutex does not change the observed state, so the scope is running the
body on the state. -/
def withLock {α : Type} (s : ServerState) (f : ServerState → α) : α :=
  f s

/-- Embedding of `SnapcastOutput::LockHasClients` from Internal.hxx: acquire
the mutex with a lock guard, then return `HasClients()`. -/
def SnapcastOutput.LockHasClients (s : ServerState) : Bool :=
  withLock s SnapcastOutput.HasClients

/-- Embedding of `SnapcastOutput::GetCodecName` from Internal.hxx:
`return "pcm";`. -/
def SnapcastOutput.GetCodecName (_s : ServerState) : String :=
  "pcm"

/-- Embedding of `SnapcastOutput::GetCodecHeader` from Internal.hxx: the
stored codec header buffer viewed as bytes. -/
def SnapcastOutput.GetCodecHeader (s : ServerState) : Option (List Nat) :=
  s.codec_header

/-- C5: for every state of the client registry, HasClients returns true if
and only if the clients collection is non-empty. -/
theorem hasClients_true_iff_clients_nonempty (s : ServerState) :
    SnapcastOutput.HasClients s = true ↔ s.clients ≠ [] := by
  simp [SnapcastOutput.HasClients]

/-- Witness for C5 at a concrete registry holding one client. -/
theorem hasClients_true_iff_clients_nonempty_witness :
    SnapcastOutput.HasClients
      { initState with clients := [7] } = true ↔ ([7] : List Nat) ≠ [] :=
  hasClients_true_iff_clients_nonempty { initState with clients := [7] }

/-- C6: the self-locking query LockHasClients returns the same boolean as the
lock-required query HasClients on every state. -/
theorem lockHasClients_eq_hasClients (s : ServerState) :
    SnapcastOutput.LockHasClients s = SnapcastOutput.HasClients s := by
  simp [SnapcastOutput.LockHasClients, withLock]

/-- C8: the codec-name query returns exactly the string "pcm" in every
state. -/
theorem getCodecName_eq_pcm (s : ServerState) :
    SnapcastOutput.GetCodecName s = "pcm" := by
  simp [SnapcastOutput.GetCodecName]

/--
Abstract model of the external ICU transliterator object opened by
`utrans_openU`.  The library is a black box here (spec: a direct pass-through
to an external text-processing library); `applyRules` is the transliteration
the library would produce for a given UTF-16 input, and `none` models an
ICU-internal failure independent of any buffer capacity.
-/
structure UTransliterator where
  applyRules : List Nat → Option (List Nat)

/--
Model of the external ICU call `utrans_transUChars`, following its
documented contract: the text in the buffer is transliterated in place; on
success the status stays clear, the reported length is the result length and
the buffer holds the result; if the result would not fit into `cap` code
units the status becomes a buffer-overflow failure and the reported length is
the required capacity.  The result is (failure status, reported length,
buffer contents of capacity `cap`).
-/
def utrans_transUChars (t : UTransliterator) (text : List Nat) (cap : Nat) :
    Bool × Nat × List Nat :=
  match t.applyRules text with
  | none => (true, text.length, text ++ List.replicate (cap - text.length) 0)
  | some out =>
    if out.length ≤ cap then
      (false, out.length, out ++ List.replicate (cap - out.length) 0)
    else
      (true, out.length, text ++ List.replicate (cap - text.length) 0)

/-- Wrapper object of Transliterator.cxx: it owns the ICU transliterator. -/
structure IcuTransliterator where
  transliterator : UTransliterator

/--
Embedding of `IcuTransliterator::Transliterate` from Transliterator.cxx:
allocate a destination of capacity `src.size() * 2U`, copy the source into
it, call `utrans_transUChars` on it, return nullptr (`none`) when the status
reports failure, and otherwise shrink the destination to the reported length
(`dest.SetSize(length)`) and return it.
-/
def IcuTransliterator.Transliterate (self : IcuTransliterator)
    (src : List Nat) : Option (List Nat) :=
  let cap := src.length * 2
  let r := utrans_transUChars self.transliterator src cap
  if r.1 then none
  else some (r.2.2.take r.2.1)

/--
Stated from the words of the spec, for the refinement claim only: a direct
pass-through to the external text-processing library, adding no behaviour of
its own, so the wrapper returns exactly what the library produces.
-/
def TransliterateSpecModel (self : IcuTransliterator) (src : List Nat) :
    Option (List Nat) :=
  self.transliterator.applyRules src

/-- A transliterator whose library output on input s is s ++ s ++ [0], so on
a one-unit input the library result has three units, exceeding the wrapper
destination capacity of two. -/
def tGrow : IcuTransliterator :=
  ⟨⟨fun s => some (s ++ s ++ [0])⟩⟩

/-- Counterexample to C9 as stated: on input [1] the library produces
[1, 1, 0], but the wrapper returns none because the result exceeds the fixed
destination capacity of twice the input length, so the wrapper is not a pure
pass-through. -/
theorem transliterate_not_pass_through :
    IcuTransliterator.Transliterate tGrow [1] ≠ TransliterateSpecModel tGrow [1] := by
  decide

/-- C9 amended: the wrapper returns exactly the library result whenever the
library succeeds and its result fits within the fixed destination capacity of
twice the input length; a library failure, including a capacity overflow, is
translated into a null return instead. -/
theorem transliterate_pass_through_when_fits (t : IcuTransliterator)
    (src out : List Nat)
    (h : t.transliterator.applyRules src = some out)
    (hfit : out.length ≤ 2 * src.length) :
    t.Transliterate src = some out := by
  have hfit' : out.length ≤ src.length * 2 := by omega
  simp only [IcuTransliterator.Transliterate, utrans_transUChars, h,
    if_pos hfit']
  simp [List.take_left']

/-- A transliterator whose library is the identity. -/
def tId : IcuTransliterator :=
  ⟨⟨fun s => some s⟩⟩

/-- Witness for the amended C9 at a concrete fitting input. -/
theorem transliterate_pass_through_when_fits_witness :
    IcuTransliterator.Transliterate tId [2, 3] = some [2, 3] :=
  transliterate_pass_through_when_fits tId [2, 3] [2, 3] rfl (by decide)

/-- C10: Transliterate is a total function into an optional result (the
source method is noexcept, so no exception path exists): a library failure
yields none; a library result longer than twice the input length yields none;
and otherwise the returned array has exactly the output length reported by
ICU. -/
theorem transliterate_error_handling (t : IcuTransliterator) (src : List Nat) :
    (t.transliterator.applyRules src = none → t.Transliterate src = none)
    ∧ (∀ out, t.transliterator.applyRules src = some out →
        2 * src.length < out.length → t.Transliterate src = none)
    ∧ (∀ out, t.transliterator.applyRules src = some out →
        out.length ≤ 2 * src.length →
        ∃ r, t.Transliterate src = some r ∧ r.length = out.length) := by
  refine ⟨fun h => ?_, fun out h hbig => ?_, fun out h hfit => ?_⟩
  · simp [IcuTransliterator.Transliterate, utrans_transUChars, h]
  · have : ¬ out.length ≤ src.length * 2 := by omega
    simp [IcuTransliterator.Transliterate, utrans_transUChars, h, this]
  · refine ⟨out, transliterate_pass_through_when_fits t src out h hfit, rfl⟩

/-- A transliterator whose library output always has three units. -/
def tBig : IcuTransliterator :=
  ⟨⟨fun s => some (s ++ s ++ [5])⟩⟩

/-- Witness for C10: on a one-unit input whose library result has three
units, the wrapper returns none. -/
theorem transliterate_error_handling_witness :
    IcuTransliterator.Transliterate tBig [1] = none :=
  (transliterate_error_handling tBig [1]).2.1 [1, 1, 5] rfl (by decide)

/-- An observable delivery event on the wire: the codec header sent to one
client at enrollment, or one wire chunk delivered to one client during a
broadcast. -/
inductive Ev where
  | header (c : Nat)
  | chunk (c : Nat)
  deriving DecidableEq, Repr

/-- Result of one Play call: the successor state, the returned number of
accepted input bytes, how many forced Flush calls were performed, and how
many encoded bytes were produced for broadcast. -/
structure PlayResult where
  state : ServerState
  accepted : Nat
  forcedFlushes : Nat
  emitted : Nat
  deriving DecidableEq, Repr

/--
Modelled from the spec: the body of `SnapcastOutput::Play` is not in the
shown fragment (Internal.hxx only declares it).  Per the spec, Play is only
valid in Open; it feeds the encoder (the encoder consumes at most the
offered bytes and the unflushed counter grows by the consumed amount),
drains, and applies the flush heuristic: spontaneous Drain output resets the
unflushed counter to zero; otherwise, when the counter has crossed the
configured threshold `thr`, exactly one forced Flush is performed and the
counter resets to zero.  Play returns the number of input bytes consumed.
The encoder ledger `total_consumed` grows by exactly the consumed amount.
-/
def SnapcastOutput.Play (thr : Nat) (s : ServerState) (size : Nat)
    (resp : EncoderResp) : PlayResult :=
  if s.isOpen then
    let consumed := min resp.consumed size
    let u := s.unflushed_input + consumed
    let tc := s.total_consumed + consumed
    if 0 < resp.drained then
      ⟨{ s with unflushed_input := 0, total_consumed := tc },
        consumed, 0, resp.drained⟩
    else if thr ≤ u then
      ⟨{ s with unflushed_input := 0, total_consumed := tc },
        consumed, 1, resp.flushed⟩
    else
      ⟨{ s with unflushed_input := u, total_consumed := tc },
        consumed, 0, 0⟩
  else
    ⟨s, 0, 0, 0⟩

/--
Modelled from the spec: the body of `SnapcastOutput::Open` is not in the
shown fragment.  When the encoder can be constructed for the format
(`ok = true`) the output transitions to Open, an encoder instance and the
codec header `hdr` are produced and the timer is allocated; on failure the
component is left unchanged (it remains Closed, no partially-applied state).
-/
def SnapcastOutput.Open (hdr : List Nat) (ok : Bool) (s : ServerState) :
    ServerState :=
  if ok then
    { s with isOpen := true, encoder := some (), codec_header := some hdr,
             unflushed_input := 0, timer := some () }
  else s

/--
Modelled from the spec: the body of `SnapcastOutput::Close` is not in the
shown fragment.  Close flushes and releases the encoder, drops the codec
header and the timer and transitions to Closed; it does not disconnect the
existing clients.
-/
def SnapcastOutput.Close (s : ServerState) : ServerState :=
  { s with isOpen := false, encoder := none, codec_header := none,
           unflushed_input := 0, timer := none }

/--
Modelled from the spec: the body of `SnapcastOutput::Cancel` is not in the
shown fragment.  Cancel discards buffered encoder state without notifying
the clients; the unflushed counter is discarded with it.
-/
def SnapcastOutput.Cancel (s : ServerState) : ServerState :=
  { s with unflushed_input := 0 }

/--
Modelled from the spec: the body of `SnapcastOutput::Pause` is not in the
shown fragment.  Pause is a transient signal; the output stays open and the
call reports that pausing is supported.
-/
def SnapcastOutput.Pause (s : ServerState) : ServerState × Bool :=
  (s, true)

/-- Embedding of `SnapcastOutput::Enable` from Internal.hxx: it calls Bind,
which begins listening for client connections. -/
def SnapcastOutput.Enable (s : ServerState) : ServerState :=
  { s with bound := true }

/-- Embedding of `SnapcastOutput::Disable` from Internal.hxx: it calls
Unbind, which stops listening. -/
def SnapcastOutput.Disable (s : ServerState) : ServerState :=
  { s with bound := false }

/--
Modelled from the spec: the body of `SnapcastOutput::AddClient` is not in the
shown fragment.  A new connection is enrolled only while the output is open
(every member of clients is enrolled after the codec header became
available); the handle is linked at the tail of the client list and is
immediately sent the current codec header, the first event delivered to it.
-/
def SnapcastOutput.AddClient (id : Nat) (s : ServerState) :
    ServerState × List Ev :=
  if s.isOpen ∧ id ∉ s.clients then
    ({ s with clients := s.clients ++ [id] }, [Ev.header id])
  else (s, [])

/--
Modelled from the spec: the body of `SnapcastOutput::RemoveClient` is not in
the shown fragment.  Remove unlinks and destroys the handle; applied to a
handle that is not linked it is a no-op, not an error.
-/
def SnapcastOutput.RemoveClient (id : Nat) (s : ServerState) : ServerState :=
  { s with clients := s.clients.erase id }

/-- One operation on the broadcast server, with the data each call carries:
Open carries the produced codec header and whether the encoder construction
succeeds, Play carries the offered buffer size and the encoder response. -/
inductive Op where
  | doOpen (hdr : List Nat) (ok : Bool)
  | doClose
  | doPlay (size : Nat) (resp : EncoderResp)
  | doPause
  | doCancel
  | doEnable
  | doDisable
  | doAddClient (id : Nat)
  | doRemoveClient (id : Nat)
  deriving DecidableEq, Repr

/--
Modelled from the spec: one operation applied to the server state, together
with the delivery events it emits.  Enrollment emits the header event for
the new client; a Play that produced encoded bytes broadcasts one wire chunk
to every linked client, in insertion order.
-/
def applyEv (thr : Nat) (s : ServerState) : Op → ServerState × List Ev
  | .doOpen hdr ok => (SnapcastOutput.Open hdr ok s, [])
  | .doClose => (SnapcastOutput.Close s, [])
  | .doPlay size resp =>
      let r := SnapcastOutput.Play thr s size resp
      (r.state, if 0 < r.emitted then s.clients.map Ev.chunk else [])
  | .doPause => ((SnapcastOutput.Pause s).1, [])
  | .doCancel => (SnapcastOutput.Cancel s, [])
  | .doEnable => (SnapcastOutput.Enable s, [])
  | .doDisable => (SnapcastOutput.Disable s, [])
  | .doAddClient id => SnapcastOutput.AddClient id s
  | .doRemoveClient id => (SnapcastOutput.RemoveClient id s, [])

/-- The state after one operation, the emitted events forgotten. -/
def applyOp (thr : Nat) (s : ServerState) (op : Op) : ServerState :=
  (applyEv thr s op).1

/-- Run a sequence of operations, collecting the emitted events in order. -/
def runOps (thr : Nat) : ServerState → List Op → ServerState × List Ev
  | s, [] => (s, [])
  | s, op :: ops =>
      let p := applyEv thr s op
      let q := runOps thr p.1 ops
      (q.1, p.2 ++ q.2)

/-- The state after a sequence of operations. -/
def applyAll (thr : Nat) (s : ServerState) (ops : List Op) : ServerState :=
  (runOps thr s ops).1

/-- Run a sequence of Play calls, summing the accepted byte counts the calls
return. -/
def playSeq (thr : Nat) : ServerState → List (Nat × EncoderResp) →
    ServerState × Nat
  | s, [] => (s, 0)
  | s, (size, resp) :: rest =>
      let r := SnapcastOutput.Play thr s size resp
      let q := playSeq thr r.state rest
      (q.1, r.accepted + q.2)

/-- Play never changes whether the output is open. -/
theorem play_state_isOpen (thr : Nat) (s : ServerState) (size : Nat)
    (resp : EncoderResp) :
    (SnapcastOutput.Play thr s size resp).state.isOpen = s.isOpen := by
  simp only [SnapcastOutput.Play]
  split_ifs <;> rfl

/-- Play never changes the client list. -/
theorem play_state_clients (thr : Nat) (s : ServerState) (size : Nat)
    (resp : EncoderResp) :
    (SnapcastOutput.Play thr s size resp).state.clients = s.clients := by
  simp only [SnapcastOutput.Play]
  split_ifs <;> rfl

/-- Play never changes the encoder pointer. -/
theorem play_state_encoder (thr : Nat) (s : ServerState) (size : Nat)
    (resp : EncoderResp) :
    (SnapcastOutput.Play thr s size resp).state.encoder = s.encoder := by
  simp only [SnapcastOutput.Play]
  split_ifs <;> rfl

/-- One Play call grows the encoder consumption ledger by exactly the number
of bytes the call returns as accepted. -/
theorem play_total_consumed (thr : Nat) (s : ServerState) (size : Nat)
    (resp : EncoderResp) :
    (SnapcastOutput.Play thr s size resp).state.total_consumed =
      s.total_consumed + (SnapcastOutput.Play thr s size resp).accepted := by
  simp only [SnapcastOutput.Play]
  split_ifs <;> rfl

/-- Over any sequence of Play calls, the encoder consumption ledger grows by
exactly the sum of the accepted byte counts returned. -/
theorem playSeq_total_consumed (thr : Nat) (calls : List (Nat × EncoderResp)) :
    ∀ s : ServerState,
      (playSeq thr s calls).1.total_consumed =
        s.total_consumed + (playSeq thr s calls).2 := by
  induction calls with
  | nil => intro s; simp [playSeq]
  | cons c rest ih =>
      intro s
      obtain ⟨size, resp⟩ := c
      simp only [playSeq]
      rw [ih, play_total_consumed]
      omega

/-- C1: for every sequence of Play calls made while the output is Open, the
sum of the bytesAccepted values returned equals the total number of input
bytes the encoder consumed: no input byte is silently dropped and none is
counted twice. -/
theorem play_sum_accepted_eq_consumed (thr : Nat) (s : ServerState)
    (calls : List (Nat × EncoderResp)) (h : s.isOpen = true) :
    (playSeq thr s calls).1.total_consumed =
      s.total_consumed + (playSeq thr s calls).2 :=
  playSeq_total_consumed thr calls s

/-- Witness for C1: a concrete open state and two Play calls. -/
theorem play_sum_accepted_eq_consumed_witness :
    (playSeq 100 ⟨true, some (), some [1], 0, 0, some (), [], true⟩
        [(4, ⟨3, 1, 0⟩), (5, ⟨9, 0, 2⟩)]).1.total_consumed =
      (⟨true, some (), some [1], 0, 0, some (), [], true⟩ :
        ServerState).total_consumed +
        (playSeq 100 ⟨true, some (), some [1], 0, 0, some (), [], true⟩
          [(4, ⟨3, 1, 0⟩), (5, ⟨9, 0, 2⟩)]).2 :=
  play_sum_accepted_eq_consumed 100
    ⟨true, some (), some [1], 0, 0, some (), [], true⟩
    [(4, ⟨3, 1, 0⟩), (5, ⟨9, 0, 2⟩)] rfl

/-- The invariant of the spec data model: the encoder pointer is non-null
exactly when the output is open. -/
def encoderInv (s : ServerState) : Bool :=
  s.encoder.isSome == s.isOpen

/-- Every single operation preserves the encoder/open invariant. -/
theorem encoderInv_applyOp (thr : Nat) (s : ServerState) (op : Op)
    (h : encoderInv s = true) : encoderInv (applyOp thr s op) = true := by
  cases op with
  | doOpen hdr ok =>
      cases ok <;>
        simp_all [applyOp, applyEv, SnapcastOutput.Open, encoderInv]
  | doClose => simp_all [applyOp, applyEv, SnapcastOutput.Close, encoderInv]
  | doPlay size resp =>
      simp only [applyOp, applyEv, encoderInv] at h ⊢
      rw [play_state_encoder, play_state_isOpen]
      exact h
  | doPause => simp_all [applyOp, applyEv, SnapcastOutput.Pause, encoderInv]
  | doCancel => simp_all [applyOp, applyEv, SnapcastOutput.Cancel, encoderInv]
  | doEnable => simp_all [applyOp, applyEv, SnapcastOutput.Enable, encoderInv]
  | doDisable =>
      simp_all [applyOp, applyEv, SnapcastOutput.Disable, encoderInv]
  | doAddClient id =>
      simp only [applyOp, applyEv, SnapcastOutput.AddClient]
      split <;> simp_all [encoderInv]
  | doRemoveClient id =>
      simp_all [applyOp, applyEv, SnapcastOutput.RemoveClient, encoderInv]

/-- The encoder/open invariant holds along every run started in a state
satisfying it. -/
theorem encoderInv_applyAll (thr : Nat) (ops : List Op) :
    ∀ s : ServerState, encoderInv s = true →
      encoderInv (applyAll thr s ops) = true := by
  induction ops with
  | nil => intro s h; exact h
  | cons op ops ih =>
      intro s h
      have hstep : applyAll thr s (op :: ops) =
          applyAll thr (applyOp thr s op) ops := rfl
      rw [hstep]
      exact ih _ (encoderInv_applyOp thr s op h)

/-- C3: in every reachable state of the broadcast server the encoder pointer
is non-null exactly when the open flag is true, and every operation (Open,
Play, Pause, Cancel, Close, Enable, Disable, AddClient, RemoveClient)
preserves this biconditional. -/
theorem encoder_open_invariant :
    (∀ (thr : Nat) (ops : List Op),
      encoderInv (applyAll thr initState ops) = true)
    ∧ (∀ (thr : Nat) (s : ServerState) (op : Op),
      encoderInv s = true → encoderInv (applyOp thr s op) = true) :=
  ⟨fun thr ops => encoderInv_applyAll thr ops initState rfl,
   fun thr s op h => encoderInv_applyOp thr s op h⟩

/-- Witness for C3: the invariant is preserved by a Close on the initial
state. -/
theorem encoder_open_invariant_witness :
    encoderInv (applyOp 0 initState Op.doClose) = true :=
  encoder_open_invariant.2 0 initState Op.doClose rfl

/-- C4: if the unflushed counter has crossed the flush threshold and the
encoder yields no spontaneous output, the next Play performs exactly one
forced Flush and resets the counter to zero; and whenever the encoder emits
spontaneous output, the counter is reset to zero. -/
theorem play_forced_flush (thr : Nat) (s : ServerState) (size : Nat)
    (resp : EncoderResp) (hopen : s.isOpen = true) :
    (thr ≤ s.unflushed_input → resp.drained = 0 →
      (SnapcastOutput.Play thr s size resp).forcedFlushes = 1 ∧
      (SnapcastOutput.Play thr s size resp).state.unflushed_input = 0)
    ∧ (0 < resp.drained →
      (SnapcastOutput.Play thr s size resp).state.unflushed_input = 0) := by
  constructor
  · intro hthr hdr
    have hthr' : thr ≤ s.unflushed_input + min resp.consumed size :=
      le_trans hthr (Nat.le_add_right _ _)
    simp [SnapcastOutput.Play, hopen, hdr, hthr']
  · intro hdr
    simp [SnapcastOutput.Play, hopen, hdr]

/-- Witness for C4: threshold 5 crossed at counter 7, no spontaneous output,
so the Play flushes once and the counter drops to zero. -/
theorem play_forced_flush_witness :
    (SnapcastOutput.Play 5 ⟨true, some (), some [], 7, 0, some (), [], true⟩
        10 ⟨3, 0, 2⟩).forcedFlushes = 1 ∧
    (SnapcastOutput.Play 5 ⟨true, some (), some [], 7, 0, some (), [], true⟩
        10 ⟨3, 0, 2⟩).state.unflushed_input = 0 :=
  (play_forced_flush 5 ⟨true, some (), some [], 7, 0, some (), [], true⟩
      10 ⟨3, 0, 2⟩ rfl).1 (by decide) rfl

/-- C7: removing a handle that is not linked is a no-op, one Remove shrinks
the registry by at most one (the length, a natural number, never goes
negative), and on a duplicate-free registry removing the same handle twice
equals removing it once, so no handle is destroyed twice. -/
theorem remove_client_idempotent (s : ServerState) (id : Nat) :
    (id ∉ s.clients → SnapcastOutput.RemoveClient id s = s)
    ∧ ((SnapcastOutput.RemoveClient id s).clients.length ≤ s.clients.length
       ∧ s.clients.length ≤
           (SnapcastOutput.RemoveClient id s).clients.length + 1)
    ∧ (s.clients.Nodup →
        SnapcastOutput.RemoveClient id (SnapcastOutput.RemoveClient id s) =
          SnapcastOutput.RemoveClient id s) := by
  refine ⟨fun h => ?_, ⟨?_, ?_⟩, fun hnd => ?_⟩
  · simp [SnapcastOutput.RemoveClient, List.erase_of_not_mem h]
  · simpa [SnapcastOutput.RemoveClient] using
      (List.erase_sublist id s.clients).length_le
  · by_cases hm : id ∈ s.clients
    · have hlen := List.length_erase_of_mem hm
      have hpos : 0 < s.clients.length := List.length_pos_of_mem hm
      simp only [SnapcastOutput.RemoveClient]
      omega
    · simp [SnapcastOutput.RemoveClient, List.erase_of_not_mem hm]
  · have hnm : id ∉ s.clients.erase id := by
      intro hmem
      rcases (List.Nodup.mem_erase_iff hnd).1 hmem with ⟨hne, _⟩
      exact hne rfl
    simp [SnapcastOutput.RemoveClient, List.erase_of_not_mem hnm]

/-- Witness for C7: removing an absent handle from a two-client registry is
a no-op, and removing a present handle twice equals removing it once. -/
theorem remove_client_idempotent_witness :
    SnapcastOutput.RemoveClient 3
        ⟨false, none, none, 0, 0, none, [1, 2], false⟩ =
      ⟨false, none, none, 0, 0, none, [1, 2], false⟩ ∧
    SnapcastOutput.RemoveClient 2
        (SnapcastOutput.RemoveClient 2
          ⟨false, none, none, 0, 0, none, [1, 2], false⟩) =
      SnapcastOutput.RemoveClient 2
        ⟨false, none, none, 0, 0, none, [1, 2], false⟩ :=
  ⟨(remove_client_idempotent
      ⟨false, none, none, 0, 0, none, [1, 2], false⟩ 3).1 (by decide),
   (remove_client_idempotent
      ⟨false, none, none, 0, 0, none, [1, 2], false⟩ 2).2.2 (by decide)⟩

/-- Checker for the wire guarantee: scanning the event trace while carrying
the set of clients already sent their codec header, every wire chunk must go
to a client whose header was sent earlier in the trace. -/
def sentOK (sent : List Nat) : List Ev → Bool
  | [] => true
  | Ev.header c :: tr => sentOK (c :: sent) tr
  | Ev.chunk c :: tr => decide (c ∈ sent) && sentOK sent tr

/-- If the checker accepts a trace, then every chunk in it is addressed to a
client whose header was already carried in, or whose header event occurs
strictly earlier in the trace. -/
theorem sentOK_chunk_mem (c : Nat) (l2 : List Ev) :
    ∀ (tr : List Ev) (sent : List Nat) (l1 : List Ev),
      sentOK sent tr = true → tr = l1 ++ Ev.chunk c :: l2 →
      c ∈ sent ∨ Ev.header c ∈ l1 := by
  intro tr
  induction tr with
  | nil =>
      intro sent l1 _ heq
      exact absurd heq (by cases l1 <;> simp)
  | cons e tr ih =>
      intro sent l1 hok heq
      cases l1 with
      | nil =>
          rw [List.nil_append] at heq
          injection heq with h1 h2
          subst h1
          simp only [sentOK, Bool.and_eq_true, decide_eq_true_eq] at hok
          exact Or.inl hok.1
      | cons x l1 =>
          rw [List.cons_append] at heq
          injection heq with h1 h2
          subst h1
          cases e with
          | header d =>
              simp only [sentOK] at hok
              rcases ih (d :: sent) l1 hok h2 with hmem | hh
              · rcases List.mem_cons.mp hmem with hcd | hcs
                · subst hcd
                  exact Or.inr (List.mem_cons_self _ _)
                · exact Or.inl hcs
              · exact Or.inr (List.mem_cons_of_mem _ hh)
          | chunk d =>
              simp only [sentOK, Bool.and_eq_true] at hok
              rcases ih sent l1 hok.2 h2 with hmem | hh
              · exact Or.inl hmem
              · exact Or.inr (List.mem_cons_of_mem _ hh)

/-- Broadcasting a chunk to clients that all already have their header keeps
the trace acceptable. -/
theorem sentOK_map_chunk_append (ys : List Ev) :
    ∀ (cs sent : List Nat),
      (∀ x ∈ cs, x ∈ sent) → sentOK sent ys = true →
      sentOK sent (cs.map Ev.chunk ++ ys) = true := by
  intro cs
  induction cs with
  | nil =>
      intro sent _ hys
      simpa using hys
  | cons a cs ih =>
      intro sent h hys
      simp only [List.map_cons, List.cons_append, sentOK, Bool.and_eq_true,
        decide_eq_true_eq]
      exact ⟨h a (List.mem_cons_self a cs),
        ih sent (fun x hx => h x (List.mem_cons_of_mem _ hx)) hys⟩

/-- Open does not change the client list. -/
theorem open_clients (hdr : List Nat) (ok : Bool) (s : ServerState) :
    (SnapcastOutput.Open hdr ok s).clients = s.clients := by
  cases ok <;> simp [SnapcastOutput.Open]

/-- Along any run started from a state whose every client already has its
header among `sent`, the emitted event trace is accepted by the checker. -/
theorem runOps_sentOK (thr : Nat) :
    ∀ (ops : List Op) (s : ServerState) (sent : List Nat),
      (∀ c ∈ s.clients, c ∈ sent) →
      sentOK sent (runOps thr s ops).2 = true := by
  intro ops
  induction ops with
  | nil =>
      intro s sent _
      rfl
  | cons op ops ih =>
      intro s sent h
      cases op with
      | doOpen hdr ok =>
          show sentOK sent (runOps thr (SnapcastOutput.Open hdr ok s) ops).2 = true
          exact ih _ sent (fun c hc => h c (open_clients hdr ok s ▸ hc))
      | doClose =>
          exact ih (s := SnapcastOutput.Close s) sent (fun c hc => h c hc)
      | doPlay size resp =>
          show sentOK sent
            ((if 0 < (SnapcastOutput.Play thr s size resp).emitted then
                s.clients.map Ev.chunk
              else []) ++
              (runOps thr (SnapcastOutput.Play thr s size resp).state ops).2) = true
          have hrest : sentOK sent
              (runOps thr (SnapcastOutput.Play thr s size resp).state ops).2 = true :=
            ih _ sent (fun c hc => h c (play_state_clients thr s size resp ▸ hc))
          by_cases he : 0 < (SnapcastOutput.Play thr s size resp).emitted
          · rw [if_pos he]
            exact sentOK_map_chunk_append _ s.clients sent h hrest
          · rw [if_neg he]
            simpa using hrest
      | doPause =>
          exact ih (s := (SnapcastOutput.Pause s).1) sent (fun c hc => h c hc)
      | doCancel =>
          exact ih (s := SnapcastOutput.Cancel s) sent (fun c hc => h c hc)
      | doEnable =>
          exact ih (s := SnapcastOutput.Enable s) sent (fun c hc => h c hc)
      | doDisable =>
          exact ih (s := SnapcastOutput.Disable s) sent (fun c hc => h c hc)
      | doAddClient id =>
          show sentOK sent ((SnapcastOutput.AddClient id s).2 ++
            (runOps thr (SnapcastOutput.AddClient id s).1 ops).2) = true
          by_cases hc : s.isOpen ∧ id ∉ s.clients
          · simp only [SnapcastOutput.AddClient, if_pos hc]
            show sentOK (id :: sent)
              (runOps thr { s with clients := s.clients ++ [id] } ops).2 = true
            apply ih
            intro x hx
            rcases List.mem_append.mp hx with hxs | hxi
            · exact List.mem_cons_of_mem _ (h x hxs)
            · rcases List.mem_singleton.mp hxi with rfl
              exact List.mem_cons_self _ _
          · simp only [SnapcastOutput.AddClient, if_neg hc]
            exact ih s sent h
      | doRemoveClient id =>
          exact ih (s := SnapcastOutput.RemoveClient id s) sent
            (fun c hc => h c (List.mem_of_mem_erase hc))

/-- C2: in every execution of the broadcast server starting from the initial
state, a wire chunk delivered to a client is always preceded, strictly
earlier in the delivery trace, by the codec-header message sent to that same
client: the first message a client ever receives is its codec header. -/
theorem chunk_never_before_header (thr : Nat) (ops : List Op)
    (l1 l2 : List Ev) (c : Nat)
    (h : (runOps thr initState ops).2 = l1 ++ Ev.chunk c :: l2) :
    Ev.header c ∈ l1 := by
  have hok : sentOK [] (runOps thr initState ops).2 = true :=
    runOps_sentOK thr ops initState []
      (fun c hc => absurd hc (List.not_mem_nil c))
  rcases sentOK_chunk_mem c l2 _ [] l1 hok h with hmem | hh
  · exact absurd hmem (List.not_mem_nil c)
  · exact hh

/-- Witness for C2: open, enroll client 5, play with spontaneous encoder
output; the trace is the header to client 5 followed by one chunk to it, and
the theorem places the header in the prefix before the chunk. -/
theorem chunk_never_before_header_witness :
    Ev.header 5 ∈ [Ev.header 5] :=
  chunk_never_before_header 0
    [Op.doOpen [9] true, Op.doAddClient 5, Op.doPlay 4 ⟨4, 3, 0⟩]
    [Ev.header 5] [] 5 (by decide)
